import Mathlib

/-!
Verification of the `multi-reader` repository: a concatenating, seekable,
asynchronously prefetching byte stream (`MultiReader` in the Go source).
The Go code is embedded shallowly: the shared mutable state becomes a
structure, each critical section of the consumer and of the prefetcher
goroutine becomes a pure step function, and the whole two-actor system is a
labelled transition system whose steps are those critical sections.
-/

namespace MR

/-- Error values of the program.  `eof` is `io.EOF`, `closedPipe` is
`io.ErrClosedPipe`; `invalidWhence` and `outOfRange` are the two errors built
by `MultiReader.Seek` via `fmt.Errorf`; `closeFail i` stands for the distinct
error value returned by source `i` on `Close`; `joinOne`/`joinCons` model
`errors.Join` applied to one or two non-nil arguments (as built by
`MultiReader.Close`), and `wrapClose` models the final
`fmt.Errorf("error when closing: %w", multiErr)` wrapper. -/
inductive Err where
  | eof : Err
  | closedPipe : Err
  | invalidWhence (w : Int) : Err
  | outOfRange (pos total : Int) : Err
  | closeFail (i : Nat) : Err
  | joinOne (a : Err) : Err
  | joinCons (a b : Err) : Err
  | wrapClose (e : Err) : Err
  deriving Repr, DecidableEq

/-- Embedding of `errors.Is(e, t)`: equality, or unwrapping through the
`%w` wrapper, or membership in an `errors.Join` aggregate. -/
def errIs : Err → Err → Bool
  | e, t =>
    (e = t) ||
      match e with
      | .joinOne a => errIs a t
      | .joinCons a b => errIs a t || errIs b t
      | .wrapClose a => errIs a t
      | _ => false

/-- An underlying source (`SizedReadSeekCloser`): its byte content and the
error (if any) its `Close` returns.  `Size()` is `data.length`; `Read` and
`Seek` behave like `strings.Reader` over `data`. -/
structure Src where
  data : List Nat
  closeErr : Option Err
  deriving Repr, DecidableEq

/-- Size of a block of the prefetch window (`bufferSize` in the source). -/
def bufferSize : Nat := 1024 * 1024

/-- Default number of window slots (`defaultBuffersNum` in the source). -/
def defaultBuffersNum : Nat := 4

/-- The shared state of `MultiReader` (all fields guarded by `m.cond.L` in
the source), together with the per-source read positions (private to the
prefetcher) and `prefetchDone` modelled as a `Bool` recording whether the
done channel is non-nil. -/
structure MultiReader where
  readers : List Src
  totalSize : Int
  prefixSizes : List Int
  absPos : Int
  buffers : List (List Nat)
  headStart : Int
  headIdx : Nat
  tailIdx : Nat
  occupiedCnt : Nat
  consumedInHead : Nat
  closed : Bool
  prefetchErr : Option Err
  prefetchStarted : Bool
  prefetchDone : Bool
  pfPos : Int
  pfNeedSeek : Bool
  srcPos : List Nat
  deriving Repr, DecidableEq

/-- Window slot access, `m.buffers[i]` (a nil Go slice is the empty list). -/
def slot (m : MultiReader) (i : Nat) : List Nat := m.buffers.getD i []

/-- Access to `m.prefixSizes[i]`. -/
def pfx (m : MultiReader) (i : Nat) : Int := m.prefixSizes.getD i 0

/-- Embedding of `ringOps.inHead` (part_000 lines 62-74): does `pos` fall
inside the current head block, according to `headStart`? -/
def inHead (m : MultiReader) (pos : Int) : Bool :=
  if m.occupiedCnt = 0 then false
  else if m.headStart ≤ pos ∧ pos < m.headStart + ((slot m m.headIdx).length : Int) then true
  else false

/-- The `for range m.occupiedCnt` walk of `ringOps.seekWithinWindow`
(part_000 lines 92-102); the fuel argument is the loop count
`m.occupiedCnt`. Returns the new `(headIdx, consumedInHead)` when found. -/
def swwLoop (m : MultiReader) : Nat → Int → Nat → Int → Option (Nat × Int)
  | 0, _, _, _ => none
  | fuel + 1, seekDelta, headIdx, consumed =>
    let remain : Int := ((slot m headIdx).length : Int) - consumed
    if seekDelta < remain then some (headIdx, consumed + seekDelta)
    else swwLoop m fuel (seekDelta - remain) ((headIdx + 1) % m.buffers.length) 0

/-- Embedding of `ringOps.seekWithinWindow` (part_000 lines 78-105).  Note:
exactly as in the source, it updates only `headIdx` and `consumedInHead`;
it does not touch `headStart`, `occupiedCnt`, `tailIdx` or the slots. -/
def seekWithinWindow (m : MultiReader) (pos : Int) : Option MultiReader :=
  if m.occupiedCnt = 0 then none
  else
    let effectiveStart := m.headStart + (m.consumedInHead : Int)
    if pos < effectiveStart then none
    else
      match swwLoop m m.occupiedCnt (pos - effectiveStart) m.headIdx (m.consumedInHead : Int) with
      | some (idx, consumed) => some { m with headIdx := idx, consumedInHead := consumed.toNat }
      | none => none

/-- The slot-clearing loop of `ringOps.resetTo` (part_000 lines 110-112):
`for i := 0; i < occupiedCnt; i++ { buffers[(headIdx+i)%len] = nil }`. -/
def clearSlots (bufs : List (List Nat)) (headIdx len : Nat) : Nat → List (List Nat)
  | 0 => bufs
  | i + 1 => (clearSlots bufs headIdx len i).set ((headIdx + i) % len) []

/-- Embedding of `ringOps.resetTo` (part_000 lines 107-122). -/
def resetTo (m : MultiReader) (pos : Int) : MultiReader :=
  { m with
    buffers := clearSlots m.buffers m.headIdx m.buffers.length m.occupiedCnt
    tailIdx := m.headIdx
    occupiedCnt := 0
    consumedInHead := 0
    headStart := pos
    prefetchErr := none
    pfPos := pos
    pfNeedSeek := true }

/-- The loop of `NewMultiReader` building `prefixSizes` (part_000 lines
135-141): entry `i` receives the running total before source `i`; the
final entry is the total. -/
def prefixSumsGo (readers : List Src) (total : Int) : List Int :=
  match readers with
  | [] => [total]
  | r :: rest => total :: prefixSumsGo rest (total + r.data.length)

/-- The prefix-sum array built by `NewMultiReader`: entry `i` is the sum of
the sizes of sources `0..i-1`; entry `n` is the total size. -/
def prefixSums (readers : List Src) : List Int :=
  prefixSumsGo readers 0

/-- Embedding of `NewMultiReader` (part_000 lines 129-162). -/
def NewMultiReader (buffersNum : Int) (readers : List Src) : MultiReader :=
  let bn : Nat := if buffersNum ≤ 0 then defaultBuffersNum else buffersNum.toNat
  let ps := prefixSums readers
  { readers := readers
    totalSize := ps.getD readers.length 0
    prefixSizes := ps
    absPos := 0
    buffers := List.replicate bn []
    headStart := 0
    headIdx := 0
    tailIdx := 0
    occupiedCnt := 0
    consumedInHead := 0
    closed := false
    prefetchErr := none
    prefetchStarted := false
    prefetchDone := false
    pfPos := 0
    pfNeedSeek := true
    srcPos := List.replicate readers.length 0 }

/-- Outcome of running the body of `MultiReader.Read` until it returns or
blocks in `m.cond.Wait()`. -/
inductive ReadRes where
  | done (m : MultiReader) (n : Nat) (acc : List Nat) (e : Option Err) : ReadRes
  | wait (m : MultiReader) (n : Nat) (acc : List Nat) : ReadRes
  deriving Repr, DecidableEq

/-- Embedding of the `for n < len(p)` loop of `MultiReader.Read` (part_000
lines 182-215), run under the lock until it returns or reaches
`m.cond.Wait()`.  `fuel` bounds the iteration count; every call below uses
`len - n + 1`, which suffices because each non-exiting iteration copies at
least one byte. -/
def readLoop (m : MultiReader) (fuel len n : Nat) (acc : List Nat) : ReadRes :=
  match fuel with
  | 0 => .wait m n acc
  | fuel + 1 =>
    if len ≤ n then .done m n acc none
    else if m.absPos = m.totalSize then .done m n acc (some .eof)
    else if m.occupiedCnt = 0 ∨ (slot m m.headIdx).length ≤ m.consumedInHead then
      match m.prefetchErr with
      | some e => .done m n acc (some e)
      | none => .wait m n acc
    else
      let headBuf := slot m m.headIdx
      let toCopy := min (headBuf.length - m.consumedInHead) (len - n)
      let acc2 := acc ++ (headBuf.drop m.consumedInHead).take toCopy
      let m2 := { m with
        absPos := m.absPos + (toCopy : Int)
        consumedInHead := m.consumedInHead + toCopy }
      let m3 :=
        if m2.consumedInHead = headBuf.length then
          let L := m2.buffers.length
          let hIdx := (m2.headIdx + 1) % L
          { m2 with
            headStart := m2.headStart + (headBuf.length : Int)
            headIdx := hIdx
            occupiedCnt := m2.occupiedCnt - 1
            consumedInHead := 0
            buffers := m2.buffers.set ((hIdx + L - 1) % L) [] }
        else m2
      readLoop m3 fuel len (n + toCopy) acc2

/-- Embedding of the entry of `MultiReader.Read` (part_000 lines 165-180):
the zero-length fast path, the closed / EOF checks, the lazy
`startPrefetchLocked` (lines 303-313), then the copy loop.  The returned
`Bool` records whether this call started the prefetcher. -/
def readBegin (m : MultiReader) (len : Nat) : ReadRes × Bool :=
  if len = 0 then (.done m 0 [] none, false)
  else if m.closed then (.done m 0 [] (some .closedPipe), false)
  else if m.absPos = m.totalSize then (.done m 0 [] (some .eof), false)
  else if m.prefetchStarted then (readLoop m (len + 1) len 0 [], false)
  else
    let m2 := { m with
      prefetchStarted := true
      prefetchDone := true
      pfPos := m.absPos
      pfNeedSeek := true }
    (readLoop m2 (len + 1) len 0 [], true)

/-- Result of `MultiReader.Seek`. -/
inductive SeekRes where
  | ok (pos : Int) : SeekRes
  | err (e : Err) : SeekRes
  deriving Repr, DecidableEq

/-- The `whence` dispatch of `MultiReader.Seek` (part_000 lines 230-240):
`io.SeekStart = 0`, `io.SeekCurrent = 1`, `io.SeekEnd = 2`; any other value
has no base. -/
def seekBase (m : MultiReader) (whence : Int) : Option Int :=
  if whence = 0 then some 0
  else if whence = 1 then some m.absPos
  else if whence = 2 then some m.totalSize
  else none

/-- Embedding of `MultiReader.Seek` (part_000 lines 222-261). -/
def mrSeek (m : MultiReader) (offset : Int) (whence : Int) : MultiReader × SeekRes :=
  if m.closed then (m, .err .closedPipe)
  else
    match seekBase m whence with
    | none => (m, .err (.invalidWhence whence))
    | some base =>
      let seekPos := base + offset
      if seekPos < 0 ∨ m.totalSize < seekPos then
        (m, .err (.outOfRange seekPos m.totalSize))
      else
        let m2 :=
          if inHead m seekPos then
            { m with consumedInHead := (seekPos - m.headStart).toNat }
          else
            match seekWithinWindow m seekPos with
            | some mw => mw
            | none => resetTo m seekPos
        ({ m2 with absPos := seekPos }, .ok seekPos)

/-- Ghost events recording the calls the composite makes on its underlying
sources, plus the producer-done wait of `Close`. -/
inductive Ev where
  | srcSeek (i : Nat) (off : Int) : Ev
  | srcRead (i : Nat) (req n : Nat) : Ev
  | srcClose (i : Nat) : Ev
  | waitDone : Ev
  deriving Repr, DecidableEq

/-- Embedding of `errors.Join(err, multiErr)` as used by `MultiReader.Close`
(part_000 line 286): with a nil accumulator it wraps the single error,
otherwise the two arguments. -/
def joinWith (e : Err) : Option Err → Err
  | none => .joinOne e
  | some acc => .joinCons e acc

/-- The source-closing loop of `MultiReader.Close` (part_000 lines 283-288):
closes the sources in declared order, folding errors with `errors.Join`. -/
def closeAllGo (rs : List Src) (i : Nat) (acc : Option Err) : Option Err × List Ev :=
  match rs with
  | [] => (acc, [])
  | r :: rest =>
    let acc2 := match r.closeErr with
      | none => acc
      | some e => some (joinWith e acc)
    let res := closeAllGo rest (i + 1) acc2
    (res.1, .srcClose i :: res.2)

/-- Embedding of `MultiReader.Close` (part_000 lines 266-294): idempotence
check, setting the closed flag, waiting for the producer-done channel when
it is non-nil (the `waitDone` event), closing all sources, and wrapping any
aggregate with `fmt.Errorf("error when closing: %w", multiErr)`. -/
def mrClose (m : MultiReader) : MultiReader × Option Err × List Ev :=
  if m.closed then (m, none, [])
  else
    let m2 := { m with closed := true }
    let waitEvs : List Ev := if m.prefetchDone then [.waitDone] else []
    let res := closeAllGo m.readers 0 none
    let agg : Option Err := match res.1 with
      | none => none
      | some e => some (.wrapClose e)
    (m2, agg, waitEvs ++ res.2)

/-- Control state of the prefetcher goroutine (`prefetchLoop`, part_000
lines 324-460), split at the points where it releases the lock: `run` is
the top of the loop (about to run lines 339-375), `ioPending` is the
unlocked region holding a selected reader (lines 378-406), `ioDone` is the
state after the source `Read`, about to run the re-check / publish section
(lines 408-458). -/
inductive PfCtl where
  | notStarted : PfCtl
  | run (curPos : Int) (curReaderIdx : Option Nat) (needSeek : Bool) : PfCtl
  | ioPending (curPos : Int) (curReaderIdx : Nat) (needSeek : Bool) : PfCtl
  | ioDone (curPos : Int) (curReaderIdx : Nat) (buf : List Nat) (readErr : Option Err) : PfCtl
  | exited : PfCtl
  deriving Repr, DecidableEq

/-- The whole two-actor system: the shared state, the prefetcher control
state, and the consumer control state (`reading` when a `Read` call is
parked in `m.cond.Wait()`). -/
inductive CCtl where
  | idle : CCtl
  | reading (len n : Nat) (acc : List Nat) : CCtl
  deriving Repr, DecidableEq

structure Sys where
  mr : MultiReader
  pf : PfCtl
  cc : CCtl
  deriving Repr, DecidableEq

/-- Embedding of `sort.Search(len(m.readers), func(i) { return
m.prefixSizes[i+1] > curPos })` (part_000 lines 369-371): the least index
whose end boundary exceeds `curPos` (the predicate is monotone because the
prefix sums are non-decreasing, so linear search agrees with the binary
search), or `len(readers)` if none. -/
def searchReader (m : MultiReader) (c : Int) : Nat :=
  (List.range m.readers.length).findIdx (fun i => c < pfx m (i + 1))

/-- The deferred epilogue of `prefetchLoop` (part_000 lines 326-332):
clears `prefetchStarted` so a later `Read` can relaunch the producer. -/
def pfExit (m : MultiReader) : MultiReader := { m with prefetchStarted := false }

/-- The source `Read` stage of the prefetcher (part_000 lines 396-406):
the empty-source skip, then one block read of size
`min(bufferSize, remainInReader)` from the active source, modelled like
`strings.Reader` (returns `(0, EOF)` when exhausted, otherwise the
requested bytes with a nil error). -/
def pfReadStage (s : Sys) (c : Int) (idx : Nat) (evs : List Ev) : Sys × List Ev :=
  let m := s.mr
  let remainInReader := pfx m (idx + 1) - c
  if remainInReader = 0 then
    ({ s with pf := .run (pfx m (idx + 1)) none true }, evs)
  else
    let toRead := min (bufferSize : Int) remainInReader
    let src := m.readers.getD idx ⟨[], none⟩
    let sp := m.srcPos.getD idx 0
    let rres :=
      if src.data.length ≤ sp then (([] : List Nat), some Err.eof)
      else ((src.data.drop sp).take toRead.toNat, (none : Option Err))
    let m2 := { m with srcPos := m.srcPos.set idx (sp + rres.1.length) }
    ({ s with mr := m2, pf := .ioDone c idx rres.1 rres.2 },
      evs ++ [Ev.srcRead idx toRead.toNat rres.1.length])

/-- The tail of the top critical section of `prefetchLoop` (part_000 lines
351-375), run after the closed check and the pending-seek consumption:
the global-EOF exit, the backpressure wait, and the active-reader
selection.  `m1` is the (possibly updated) shared state and `c1`, `idx1`,
`ns1` the prefetcher locals. -/
def pfRunTail (s : Sys) (c1 : Int) (idx1 : Option Nat) (ns1 : Bool)
    (m1 : MultiReader) : Sys × List Ev :=
  if m1.totalSize ≤ c1 then
    let m2 := { m1 with
      prefetchErr := if m1.prefetchErr = none then some .eof else m1.prefetchErr }
    ({ s with mr := pfExit m2, pf := .exited }, [])
  else if m1.occupiedCnt = m1.buffers.length then
    ({ s with mr := m1, pf := .run c1 idx1 ns1 }, [])
  else
    let sel :=
      match idx1 with
      | some i => if pfx m1 i ≤ c1 ∧ c1 < pfx m1 (i + 1) then (i, ns1)
                  else (searchReader m1 c1, true)
      | none => (searchReader m1 c1, true)
    ({ s with mr := m1, pf := .ioPending c1 sel.1 sel.2 }, [])

/-- One step of the prefetcher: one critical section (plus the adjacent
lock-free I/O on the producer-private source state).  Faithful to
`prefetchLoop` (part_000 lines 324-460); a full window makes the `run`
stage stay put (`m.cond.Wait()`). -/
def pfStep (s : Sys) : Sys × List Ev :=
  let m := s.mr
  match s.pf with
  | .notStarted => (s, [])
  | .exited => (s, [])
  | .run c idx ns =>
    if m.closed then ({ s with mr := pfExit m, pf := .exited }, [])
    else if m.pfNeedSeek then
      pfRunTail s m.pfPos none true { m with pfNeedSeek := false }
    else
      pfRunTail s c idx ns m
  | .ioPending c idx ns =>
    if ns then
      let off := c - pfx m idx
      let m1 := { m with srcPos := m.srcPos.set idx off.toNat }
      if m1.closed then ({ s with mr := pfExit m1, pf := .exited }, [Ev.srcSeek idx off])
      else pfReadStage { s with mr := m1 } c idx [Ev.srcSeek idx off]
    else pfReadStage s c idx []
  | .ioDone c idx buf readErr =>
    if m.closed then ({ s with mr := pfExit m, pf := .exited }, [])
    else if m.pfNeedSeek then
      ({ s with mr := { m with pfNeedSeek := false }, pf := .run m.pfPos none true }, [])
    else
      let n := buf.length
      let pub :=
        if 0 < n then
          ({ m with
              buffers := m.buffers.set m.tailIdx buf
              tailIdx := (m.tailIdx + 1) % m.buffers.length
              occupiedCnt := m.occupiedCnt + 1 }, c + (n : Int))
        else (m, c)
      let m2 := pub.1; let c2 := pub.2
      match readErr with
      | some e =>
        if e = .eof then
          if m2.totalSize ≤ c2 then
            ({ s with
                mr := pfExit { m2 with
                  prefetchErr := if m2.prefetchErr = none then some .eof else m2.prefetchErr }
                pf := .exited }, [])
          else
            let c3 := if c2 < pfx m2 (idx + 1) then pfx m2 (idx + 1) else c2
            ({ s with mr := m2, pf := .run c3 none true }, [])
        else
          ({ s with mr := pfExit { m2 with prefetchErr := some e }, pf := .exited }, [])
      | none => ({ s with mr := m2, pf := .run c2 (some idx) false }, [])

/-- Labels of the transition system: a prefetcher step, the start of a
consumer `Read`, the resumption of a parked `Read` after a broadcast, a
`Seek`, or the flag-setting critical section of `Close`. -/
inductive Act where
  | pf : Act
  | readStart (len : Nat) : Act
  | readGo : Act
  | seek (offset whence : Int) : Act
  | close : Act
  deriving Repr, DecidableEq

/-- Observable results of consumer operations. -/
inductive Out where
  | readRet (n : Nat) (bytes : List Nat) (e : Option Err) : Out
  | seekRet (r : SeekRes) : Out
  | closeFlagged : Out
  deriving Repr, DecidableEq

/-- One labelled step of the whole system. -/
def stepA (s : Sys) (a : Act) : Sys × Option Out × List Ev :=
  match a with
  | .pf =>
    let r := pfStep s
    (r.1, none, r.2)
  | .readStart len =>
    match s.cc with
    | .idle =>
      let rb := readBegin s.mr len
      let s1 := if rb.2 then { s with pf := .run 0 none true } else s
      match rb.1 with
      | .done m n acc e => ({ s1 with mr := m, cc := .idle }, some (.readRet n acc e), [])
      | .wait m n acc => ({ s1 with mr := m, cc := .reading len n acc }, none, [])
    | _ => (s, none, [])
  | .readGo =>
    match s.cc with
    | .reading len n acc =>
      match readLoop s.mr (len - n + 1) len n acc with
      | .done m n2 acc2 e => ({ s with mr := m, cc := .idle }, some (.readRet n2 acc2 e), [])
      | .wait m n2 acc2 => ({ s with mr := m, cc := .reading len n2 acc2 }, none, [])
    | _ => (s, none, [])
  | .seek off w =>
    match s.cc with
    | .idle =>
      let r := mrSeek s.mr off w
      ({ s with mr := r.1 }, some (.seekRet r.2), [])
    | _ => (s, none, [])
  | .close =>
    ({ s with mr := { s.mr with closed := true } }, some .closeFlagged, [])

/-- Initial system for `NewMultiReader(buffersNum, readers...)`. -/
def initSys (buffersNum : Int) (readers : List Src) : Sys :=
  { mr := NewMultiReader buffersNum readers, pf := .notStarted, cc := .idle }

/-- Run a schedule, collecting consumer-visible outputs. -/
def runSched (s : Sys) : List Act → Sys × List Out
  | [] => (s, [])
  | a :: rest =>
    let r := stepA s a
    let rr := runSched r.1 rest
    (rr.1, (match r.2.1 with | some x => [x] | none => []) ++ rr.2)

/-- Reachability from a given initial system along any schedule. -/
inductive Reach (s0 : Sys) : Sys → Prop where
  | base : Reach s0 s0
  | snoc {s : Sys} (h : Reach s0 s) (a : Act) : Reach s0 (stepA s a).1

/-- Concatenated logical byte stream of a source list. -/
def streamBytes (readers : List Src) : List Nat :=
  (readers.map (fun r => r.data)).flatten

/-! Concrete runs exhibiting the behaviour of the in-window seek path
(`ringOps.seekWithinWindow`).  Two sources of four distinct bytes each,
window of four slots.  The schedule: `Read(1)` starts the prefetcher and
parks; three prefetcher steps publish the first block; the read resumes and
returns one byte; three more prefetcher steps publish the second block. -/
def c12srcs : List Src := [⟨[10, 11, 12, 13], none⟩, ⟨[20, 21, 22, 23], none⟩]

def c12run : Sys :=
  (runSched (initSys 4 c12srcs)
    [.readStart 1, .pf, .pf, .pf, .readGo, .pf, .pf, .pf]).1

/-- State after `Seek(5, io.SeekStart)` from `c12run`: the target lies in
the second cached block, past the head block. -/
def c12seek : Sys := (stepA c12run (.seek 5 0)).1

/-- Sources and schedule for the stale-read run: three sources of four
distinct bytes, window of two slots.  The prefetcher fills both slots and
parks on backpressure; the consumer reads one byte, seeks to 5 (inside the
remaining window, beyond the head block), then reads four bytes. -/
def c3srcs : List Src :=
  [⟨[1, 2, 3, 4], none⟩, ⟨[5, 6, 7, 8], none⟩, ⟨[9, 10, 11, 12], none⟩]

def c3sched : List Act :=
  [.readStart 1, .pf, .pf, .pf, .pf, .pf, .pf, .pf, .readGo, .seek 5 0, .readStart 4]

def c3run : Sys × List Out := runSched (initSys 2 c3srcs) c3sched

/-- The shared state carried by a `ReadRes`. -/
def ReadRes.state : ReadRes → MultiReader
  | .done m _ _ _ => m
  | .wait m _ _ => m

/-- Recognizer for source-close events. -/
def isCloseEv : Ev → Bool
  | .srcClose _ => true
  | _ => false

/-- Concrete states used by the witnesses. -/
def wSrc : Src := ⟨[7], none⟩

def wSys : Sys := initSys 1 [wSrc]

def wClosed : MultiReader := (mrClose (NewMultiReader 1 [wSrc])).1

def wClosedSys : Sys := { mr := wClosed, pf := .notStarted, cc := .idle }

def wErrA : Src := ⟨[1], some (.closeFail 0)⟩

def wErrB : Src := ⟨[2], none⟩

def wErrC : Src := ⟨[3], some (.closeFail 2)⟩

def wErrM : MultiReader := NewMultiReader 4 [wErrA, wErrB, wErrC]

/-- Source lists for the empty-source transparency run: `c9b` is `c9a` with
its zero-length source removed. -/
def c9a : List Src := [⟨[31, 32], none⟩, ⟨[], none⟩, ⟨[33, 34], none⟩]

def c9b : List Src := [⟨[31, 32], none⟩, ⟨[33, 34], none⟩]

/-- A schedule exercising `Read`, a `Seek`, another `Read`, and the EOF
read; surplus prefetcher steps are no-ops once the producer exits. -/
def c9sched : List Act :=
  [.readStart 2, .pf, .pf, .pf, .pf, .pf, .pf, .pf, .pf, .pf, .pf, .readGo,
   .seek 3 0, .readStart 1, .readGo, .readStart 1, .readGo]

/-- The inductive invariant behind the window-capacity bound (C4): the ring
has at least one slot, the occupied count never exceeds the slot count,
every slot holds at most `bufferSize` bytes, and while the prefetcher is in
its unlocked I/O region (`ioPending`/`ioDone`) the slot it reserved at the
backpressure check is still free (the consumer only releases slots). -/
def capInv (s : Sys) : Prop :=
  0 < s.mr.buffers.length ∧
  s.mr.occupiedCnt ≤ s.mr.buffers.length ∧
  (∀ b ∈ s.mr.buffers, b.length ≤ bufferSize) ∧
  (∀ c idx ns, s.pf = .ioPending c idx ns →
    s.mr.occupiedCnt < s.mr.buffers.length) ∧
  (∀ c idx buf e, s.pf = .ioDone c idx buf e →
    s.mr.occupiedCnt < s.mr.buffers.length ∧ buf.length ≤ bufferSize)

/-! Theorems settling the claims. -/

/-- C1: the claim states that `headStart + consumedInHead = absPos` holds in
every reachable state with a non-empty window and the cursor inside it, and
that `Read` and `Seek` preserve the equality.  Evaluating the embedded code
on a concrete reachable run refutes this: before the `Seek(5, start)` the
equality holds; the `Seek` succeeds through the `seekWithinWindow` path,
leaves the window non-empty with the cursor strictly inside the (new) head
block, and the equality fails afterwards, because `seekWithinWindow`
(part_000 lines 78-105) moves `headIdx`/`consumedInHead` without updating
`headStart`. -/
theorem C1_invariant_broken_by_seek :
    (c12run.mr.occupiedCnt ≠ 0 ∧
      c12run.mr.headStart + (c12run.mr.consumedInHead : Int) = c12run.mr.absPos) ∧
    (stepA c12run (Act.seek 5 0)).2.1 = some (Out.seekRet (SeekRes.ok 5)) ∧
    c12seek.mr.occupiedCnt ≠ 0 ∧
    c12seek.mr.consumedInHead < (slot c12seek.mr c12seek.mr.headIdx).length ∧
    c12seek.mr.headStart + (c12seek.mr.consumedInHead : Int) ≠ c12seek.mr.absPos := by
  decide

/-- C2: the claim states that a `Seek` into the remaining effective window
(but outside the head block) releases every cached block strictly before the
target and updates `headStart` to the absolute start of the new head block.
Evaluating the embedded code on the same concrete run refutes this: the
`Seek(5, start)` takes the `seekWithinWindow` path, yet the block wholly
before the target stays in slot 0, `occupiedCnt` still counts it, and
`headStart` stays `0` although the new head block starts at absolute
offset `4` (its content is the stream bytes from offset 4). -/
theorem C2_seek_within_window_releases_nothing :
    inHead c12run.mr 5 = false ∧
    (seekWithinWindow c12run.mr 5).isSome = true ∧
    (stepA c12run (Act.seek 5 0)).2.1 = some (Out.seekRet (SeekRes.ok 5)) ∧
    slot c12seek.mr 0 = [10, 11, 12, 13] ∧
    c12seek.mr.occupiedCnt = 2 ∧
    c12seek.mr.headIdx = 1 ∧
    slot c12seek.mr 1 = (streamBytes c12srcs).drop 4 ∧
    c12seek.mr.headStart = 0 := by
  decide

/-- C3: the claim states that after a successful `Seek` returning `p`, no
later `Read` delivers a byte whose absolute stream offset is below `p`.
Evaluating the embedded code on a concrete run refutes this: `Seek`
returns `5`, and the very next `Read(4)` returns `[6, 7, 8, 1]`, whose
last byte is the stream byte of absolute offset `0` (the value `1` occurs
in the stream only below offset 5); a correct read of offsets `5..9` would
be `[6, 7, 8, 9]`.  The stale byte comes from the slot that
`seekWithinWindow` skipped without releasing. -/
theorem C3_stale_byte_after_seek :
    c3run.2 = [Out.readRet 1 [1] none, Out.seekRet (SeekRes.ok 5),
               Out.readRet 4 [6, 7, 8, 1] none] ∧
    ((streamBytes c3srcs).drop 5).take 4 = [6, 7, 8, 9] ∧
    (1 : Nat) ∈ (streamBytes c3srcs).take 5 ∧
    ¬ (1 : Nat) ∈ (streamBytes c3srcs).drop 5 := by
  decide

/-- Key lemma for C5: whichever way the `Read` copy loop returns with a nil
error, it has filled the whole destination. -/
theorem readLoop_done_none :
    ∀ (fuel : Nat) (m : MultiReader) (len n : Nat) (acc : List Nat)
      (m2 : MultiReader) (n2 : Nat) (acc2 : List Nat),
      n ≤ len → readLoop m fuel len n acc = .done m2 n2 acc2 none → n2 = len := by
  intro fuel
  induction fuel with
  | zero =>
    intro m len n acc m2 n2 acc2 hn h
    simp [readLoop] at h
  | succ fuel ih =>
    intro m len n acc m2 n2 acc2 hn h
    rw [readLoop] at h
    split at h
    · rename_i hle
      cases h
      omega
    · split at h
      · cases h
      · split at h
        · split at h
          · cases h
          · cases h
        · rename_i hcond
          refine ih _ _ _ _ _ _ _ ?_ h
          omega

/-- Entry form of the C5 lemma: `Read` returns a nil status only when it
copied the full request. -/
theorem readBegin_done_none (m : MultiReader) (len : Nat) (m2 : MultiReader)
    (n : Nat) (acc : List Nat)
    (h : (readBegin m len).1 = .done m2 n acc none) : n = len := by
  rw [readBegin] at h
  split at h
  · rename_i hl
    simp at h
    omega
  · split at h
    · simp at h
    · split at h
      · simp at h
      · split at h
        · exact readLoop_done_none _ _ _ _ _ _ _ _ (Nat.zero_le _) h
        · exact readLoop_done_none _ _ _ _ _ _ _ _ (Nat.zero_le _) h

/-- C5: a consumer `Read` step that completes with a nil status has copied
exactly the requested number of bytes; a short read always carries an
error.  Stated for both the entry step of `Read` and the resumption of a
`Read` parked in `Wait` (whose progress counter never exceeds the request,
as recorded in its control state). -/
theorem C5_ok_only_on_full_read (s : Sys) (len n : Nat) (bytes : List Nat) :
    ((stepA s (.readStart len)).2.1 = some (.readRet n bytes none) → n = len) ∧
    (∀ n0 acc0, s.cc = .reading len n0 acc0 → n0 ≤ len →
      (stepA s .readGo).2.1 = some (.readRet n bytes none) → n = len) := by
  obtain ⟨mr, pf, cc⟩ := s
  constructor
  · intro h
    rw [stepA] at h
    cases cc with
    | idle =>
      simp only at h
      rcases hrb : (readBegin mr len).1 with _ | _
      · rw [hrb] at h
        simp at h
        obtain ⟨rfl, -, rfl⟩ := h
        exact readBegin_done_none _ _ _ _ _ hrb
      · rw [hrb] at h
        simp at h
    | reading l0 n0 acc0 => simp at h
  · intro n0 acc0 hcc hle h
    cases hcc
    rw [stepA] at h
    simp only at h
    rcases hrl : readLoop mr (len - n0 + 1) len n0 acc0 with _ | _
    · rw [hrl] at h
      simp at h
      obtain ⟨rfl, -, rfl⟩ := h
      exact readLoop_done_none _ _ _ _ _ _ _ _ hle hrl
    · rw [hrl] at h
      simp at h

/-- A successful `seekWithinWindow` only reassigns `headIdx` and
`consumedInHead` (exactly as in part_000 lines 95-96). -/
theorem seekWithinWindow_frame (m : MultiReader) (pos : Int) (mw : MultiReader)
    (h : seekWithinWindow m pos = some mw) :
    ∃ i c, mw = { m with headIdx := i, consumedInHead := c } := by
  rw [seekWithinWindow] at h
  split at h
  · cases h
  · dsimp only at h
    split at h
    · cases h
    · split at h
      · rename_i idx consumed hsw
        cases h
        exact ⟨idx, consumed.toNat, rfl⟩
      · cases h

/-- The copy loop of `Read` leaves the closed flag alone. -/
theorem readLoop_closed :
    ∀ (fuel : Nat) (m : MultiReader) (len n : Nat) (acc : List Nat),
      ((readLoop m fuel len n acc).state).closed = m.closed := by
  intro fuel
  induction fuel with
  | zero => intro m len n acc; simp [readLoop, ReadRes.state]
  | succ fuel ih =>
    intro m len n acc
    rw [readLoop]
    split
    · simp [ReadRes.state]
    · split
      · simp [ReadRes.state]
      · split
        · split <;> simp [ReadRes.state]
        · rw [ih]
          split <;> rfl

/-- The run-tail of the prefetcher never changes the closed flag. -/
theorem pfRunTail_closed (s : Sys) (c1 : Int) (idx1 : Option Nat) (ns1 : Bool)
    (m1 : MultiReader) : (pfRunTail s c1 idx1 ns1 m1).1.mr.closed = m1.closed := by
  simp only [pfRunTail, pfExit]
  repeat' split
  all_goals rfl

/-- The prefetcher never changes the closed flag. -/
theorem pfStep_closed (s : Sys) : (pfStep s).1.mr.closed = s.mr.closed := by
  obtain ⟨mr, pf, cc⟩ := s
  cases pf <;>
    simp only [pfStep, pfExit, pfReadStage] <;>
    (repeat' split) <;>
    (first | rfl | exact pfRunTail_closed _ _ _ _ _)

/-- `Seek` never changes the closed flag. -/
theorem mrSeek_closed (m : MultiReader) (off w : Int) :
    (mrSeek m off w).1.closed = m.closed := by
  rw [mrSeek]
  split
  · rfl
  · split
    · rfl
    · dsimp only
      split
      · rfl
      · dsimp only
        split
        · rfl
        · split
          · rename_i mw hmw
            obtain ⟨i, c, rfl⟩ := seekWithinWindow_frame _ _ _ hmw
            rfl
          · rfl

/-- Entry of `Read` leaves the closed flag alone. -/
theorem readBegin_closed (m : MultiReader) (len : Nat) :
    ((readBegin m len).1.state).closed = m.closed := by
  rw [readBegin]
  split
  · rfl
  · split
    · rfl
    · split
      · rfl
      · split
        · exact readLoop_closed _ _ _ _ _
        · exact readLoop_closed _ _ _ _ _

/-- Every step of the system preserves a set closed flag (the flag is
monotone: nothing ever clears it). -/
theorem stepA_closed (s : Sys) (a : Act) (h : s.mr.closed = true) :
    (stepA s a).1.mr.closed = true := by
  obtain ⟨mr, pf, cc⟩ := s
  cases a with
  | pf =>
    have hp := pfStep_closed ⟨mr, pf, cc⟩
    simp only [stepA]
    rw [hp]
    exact h
  | readStart len =>
    cases cc with
    | idle =>
      have hcl := readBegin_closed mr len
      simp only [stepA]
      rcases hrb : (readBegin mr len).1 with ⟨m2, n, acc, e⟩ | ⟨m2, n, acc⟩
      · rw [hrb] at hcl
        simp only [hrb]
        exact hcl.trans h
      · rw [hrb] at hcl
        simp only [hrb]
        exact hcl.trans h
    | reading l0 n0 acc0 => simpa only [stepA] using h
  | readGo =>
    cases cc with
    | idle => simpa only [stepA] using h
    | reading l0 n0 acc0 =>
      have hcl := readLoop_closed (l0 - n0 + 1) mr l0 n0 acc0
      simp only [stepA]
      rcases hrl : readLoop mr (l0 - n0 + 1) l0 n0 acc0 with ⟨m2, n, acc, e⟩ | ⟨m2, n, acc⟩
      · rw [hrl] at hcl
        simp only [hrl]
        exact hcl.trans h
      · rw [hrl] at hcl
        simp only [hrl]
        exact hcl.trans h
  | seek off w =>
    cases cc with
    | idle =>
      have hs := mrSeek_closed mr off w
      simp only [stepA]
      rw [hs]
      exact h
    | reading l0 n0 acc0 => simpa only [stepA] using h
  | close => simp only [stepA]

/-- C6 counterexample: the claim says that after `Close` every subsequent
`Read` fails with `closed_pipe`.  A zero-length `Read` on the closed
composite returns `(0, nil)` instead, because the `len(p) == 0` fast path
(part_000 lines 166-168) precedes the closed check. -/
theorem C6_counterexample_zero_length_read :
    wClosed.closed = true ∧
    (readBegin wClosed 0).1 = .done wClosed 0 [] none := by
  decide

/-- C6 (amended): after `Close` has returned, every subsequent `Read` with
non-empty destination fails with `closed_pipe` and `n = 0`, every
subsequent `Seek` fails with `closed_pipe` (a zero-length `Read` returns
`(0, nil)`); `Close` always leaves the flag set and every later step of the
system keeps it set. -/
theorem C6_closed_pipe_after_close (m0 m : MultiReader) (s : Sys) (a : Act)
    (len : Nat) (off w : Int) (hlen : 0 < len) (hc : m.closed = true)
    (hs : s.mr.closed = true) :
    (mrClose m0).1.closed = true ∧
    (readBegin m len).1 = .done m 0 [] (some .closedPipe) ∧
    mrSeek m off w = (m, .err .closedPipe) ∧
    (stepA s a).1.mr.closed = true := by
  refine ⟨?_, ?_, ?_, stepA_closed s a hs⟩
  · rw [mrClose]
    split
    · rename_i h0
      exact h0
    · rfl
  · rw [readBegin]
    rw [if_neg (by omega), if_pos hc]
  · rw [mrSeek, if_pos hc]

/-- C6 witness. -/
theorem C6_closed_pipe_after_close_witness :
    (0 < 1 ∧ wClosed.closed = true ∧ wClosedSys.mr.closed = true) ∧
    ((mrClose wClosed).1.closed = true ∧
      (readBegin wClosed 1).1 = .done wClosed 0 [] (some .closedPipe) ∧
      mrSeek wClosed 0 0 = (wClosed, .err .closedPipe) ∧
      (stepA wClosedSys .pf).1.mr.closed = true) :=
  ⟨⟨by decide, by decide, by decide⟩,
    C6_closed_pipe_after_close wClosed wClosed wClosedSys .pf 1 0 0
      (by decide) (by decide) (by decide)⟩

/-- C5 witness. -/
theorem C5_ok_only_on_full_read_witness :
    (stepA wSys (Act.readStart 0)).2.1 = some (.readRet 0 [] none) ∧ (0 : Nat) = 0 :=
  ⟨by decide, (C5_ok_only_on_full_read wSys 0 0 []).1 (by decide)⟩

/-- The close loop emits one `srcClose` event per source, in declared
order. -/
theorem closeAllGo_events :
    ∀ (rs : List Src) (i : Nat) (acc : Option Err),
      (closeAllGo rs i acc).2 = (List.range rs.length).map (fun k => Ev.srcClose (i + k)) := by
  intro rs
  induction rs with
  | nil => intro i acc; rfl
  | cons r rest ih =>
    intro i acc
    rw [closeAllGo]
    dsimp only
    rw [ih]
    rw [List.length_cons, List.range_succ_eq_map, List.map_cons, List.map_map]
    refine congrArg₂ _ (by rw [Nat.add_zero]) ?_
    refine List.map_congr_left ?_
    intro a _
    simp only [Function.comp_apply, Ev.srcClose.injEq]
    omega

/-- The close loop leaves the error accumulator alone when every source
closes cleanly. -/
theorem closeAllGo_acc_none :
    ∀ (rs : List Src) (i : Nat), (∀ r ∈ rs, r.closeErr = none) →
      ∀ acc, (closeAllGo rs i acc).1 = acc := by
  intro rs
  induction rs with
  | nil => intro i _ acc; rfl
  | cons r rest ih =>
    intro i h acc
    rw [closeAllGo]
    dsimp only
    rw [h r (by simp)]
    exact ih (i + 1) (fun x hx => h x (by simp [hx])) acc

theorem errIs_self (e : Err) : errIs e e = true := by
  rw [errIs.eq_def]
  dsimp only
  have hd : (decide (e = e)) = true := by simp
  rw [hd, Bool.true_or]

theorem errIs_joinCons_right (a b t : Err) (h : errIs b t = true) :
    errIs (.joinCons a b) t = true := by
  rw [errIs.eq_def]
  simp [h]

theorem errIs_joinWith_self (e : Err) (acc : Option Err) :
    errIs (joinWith e acc) e = true := by
  cases acc with
  | none => simp only [joinWith]; rw [errIs.eq_def]; simp [errIs_self]
  | some a => simp only [joinWith]; rw [errIs.eq_def]; simp [errIs_self]

/-- Once the accumulator holds an error matching `t`, every further join
preserves the match. -/
theorem closeAllGo_keeps :
    ∀ (rs : List Src) (i : Nat) (a t : Err), errIs a t = true →
      ∃ a2, (closeAllGo rs i (some a)).1 = some a2 ∧ errIs a2 t = true := by
  intro rs
  induction rs with
  | nil => intro i a t h; exact ⟨a, rfl, h⟩
  | cons r rest ih =>
    intro i a t h
    rw [closeAllGo]
    dsimp only
    cases hre : r.closeErr with
    | none => exact ih (i + 1) a t h
    | some e =>
      simp only [joinWith]
      exact ih (i + 1) (.joinCons e a) t (errIs_joinCons_right e a t h)

/-- Any close error contributed by some source is discoverable in the final
accumulator via `errors.Is`. -/
theorem closeAllGo_member :
    ∀ (rs : List Src) (k : Nat) (r : Src) (e : Err), rs.get? k = some r →
      r.closeErr = some e → ∀ (i : Nat) (acc : Option Err),
      ∃ a2, (closeAllGo rs i acc).1 = some a2 ∧ errIs a2 e = true := by
  intro rs
  induction rs with
  | nil => intro k r e hk; simp at hk
  | cons r0 rest ih =>
    intro k r e hk he i acc
    cases k with
    | zero =>
      simp only [List.get?_cons_zero, Option.some.injEq] at hk
      subst hk
      rw [closeAllGo]
      dsimp only
      rw [he]
      exact closeAllGo_keeps rest (i + 1) (joinWith e acc) e (errIs_joinWith_self e acc)
    | succ k =>
      simp only [List.get?_cons_succ] at hk
      rw [closeAllGo]
      dsimp only
      exact ih k r e hk he (i + 1) _

/-- C7: the first `Close` closes every source in declared order; when all
sources close cleanly it returns nil; when some fail, it returns an
aggregate in which each constituent error is discoverable by `errors.Is`;
a second `Close` returns nil and closes nothing. -/
theorem C7_close_aggregation (m : MultiReader) (hc : m.closed = false) :
    (mrClose m).2.2.filter isCloseEv
        = (List.range m.readers.length).map (fun k => Ev.srcClose k) ∧
    ((∀ r ∈ m.readers, r.closeErr = none) → (mrClose m).2.1 = none) ∧
    (∀ k r e, m.readers.get? k = some r → r.closeErr = some e →
      ∃ a, (mrClose m).2.1 = some a ∧ errIs a e = true) ∧
    mrClose (mrClose m).1 = ((mrClose m).1, none, []) := by
  have hnc : ¬ m.closed = true := by simp [hc]
  refine ⟨?_, ?_, ?_, ?_⟩
  · rw [mrClose, if_neg hnc]
    dsimp only
    rw [List.filter_append, closeAllGo_events]
    have h1 : (if m.prefetchDone = true then [Ev.waitDone] else []).filter isCloseEv = [] := by
      split <;> rfl
    rw [h1, List.nil_append]
    rw [List.filter_eq_self.mpr]
    · simp
    · intro a ha
      obtain ⟨k, -, rfl⟩ := List.mem_map.mp ha
      rfl
  · intro hall
    rw [mrClose, if_neg hnc]
    dsimp only
    rw [closeAllGo_acc_none m.readers 0 hall none]
  · intro k r e hk he
    obtain ⟨a2, hsome, hIs⟩ := closeAllGo_member m.readers k r e hk he 0 none
    refine ⟨.wrapClose a2, ?_, ?_⟩
    · rw [mrClose, if_neg hnc]
      dsimp only
      rw [hsome]
    · rw [errIs]
      simp [hIs]
  · have h1 : (mrClose m).1.closed = true := by
      rw [mrClose, if_neg hnc]
    generalize (mrClose m).1 = m1 at h1 ⊢
    rw [mrClose, if_pos h1]

/-- C7 witness: three sources, the first and third failing to close. -/
theorem C7_close_aggregation_witness :
    wErrM.closed = false ∧
    (∃ a, (mrClose wErrM).2.1 = some a ∧ errIs a (.closeFail 0) = true) :=
  ⟨rfl, (C7_close_aggregation wErrM rfl).2.2.1 0 wErrA (.closeFail 0)
    (by decide) (by decide)⟩

theorem clearSlots_length :
    ∀ (k : Nat) (bufs : List (List Nat)) (h l : Nat),
      (clearSlots bufs h l k).length = bufs.length := by
  intro k
  induction k with
  | zero => intro bufs h l; rfl
  | succ k ih => intro bufs h l; rw [clearSlots, List.length_set]; exact ih bufs h l

theorem clearSlots_bound :
    ∀ (k : Nat) (bufs : List (List Nat)) (h l B : Nat),
      (∀ b ∈ bufs, b.length ≤ B) → ∀ b ∈ clearSlots bufs h l k, b.length ≤ B := by
  intro k
  induction k with
  | zero => intro bufs h l B hB; exact hB
  | succ k ih =>
    intro bufs h l B hB b hb
    rw [clearSlots] at hb
    rcases List.mem_or_eq_of_mem_set hb with hmem | rfl
    · exact ih bufs h l B hB b hmem
    · exact Nat.zero_le B

/-- Frame facts about `Seek`: it never touches the closed flag, the
producer-done handle, the started flag, the reader list, or the slot count;
the occupied count never grows and slot-size bounds are preserved. -/
theorem mrSeek_frame (m : MultiReader) (off w : Int) :
    (mrSeek m off w).1.closed = m.closed ∧
    (mrSeek m off w).1.prefetchDone = m.prefetchDone ∧
    (mrSeek m off w).1.prefetchStarted = m.prefetchStarted ∧
    (mrSeek m off w).1.buffers.length = m.buffers.length ∧
    (mrSeek m off w).1.occupiedCnt ≤ m.occupiedCnt ∧
    (∀ B, (∀ b ∈ m.buffers, b.length ≤ B) →
      ∀ b ∈ (mrSeek m off w).1.buffers, b.length ≤ B) ∧
    (mrSeek m off w).1.readers = m.readers := by
  rw [mrSeek]
  split
  · exact ⟨rfl, rfl, rfl, rfl, le_refl _, fun B h => h, rfl⟩
  · split
    · exact ⟨rfl, rfl, rfl, rfl, le_refl _, fun B h => h, rfl⟩
    · dsimp only
      split
      · exact ⟨rfl, rfl, rfl, rfl, le_refl _, fun B h => h, rfl⟩
      · split
        · exact ⟨rfl, rfl, rfl, rfl, le_refl _, fun B h => h, rfl⟩
        · split
          · rename_i mw hmw
            obtain ⟨i, c, rfl⟩ := seekWithinWindow_frame _ _ _ hmw
            exact ⟨rfl, rfl, rfl, rfl, le_refl _, fun B h => h, rfl⟩
          · refine ⟨rfl, rfl, rfl, clearSlots_length _ _ _ _, Nat.zero_le _, ?_, rfl⟩
            intro B hB
            exact clearSlots_bound _ _ _ _ B hB

/-- C8: on a non-closed composite, an unrecognized `whence` has no base and
fails with `invalid whence` leaving the state untouched; a computed target
outside `[0, totalSize]` fails with the out-of-range error leaving the
state untouched; a target equal to `totalSize` succeeds and leaves the
cursor at EOF. -/
theorem C8_seek_validation (m : MultiReader) (hc : m.closed = false)
    (hts : 0 ≤ m.totalSize) (off w : Int) :
    ((w ≠ 0 ∧ w ≠ 1 ∧ w ≠ 2) → seekBase m w = none) ∧
    (seekBase m w = none → mrSeek m off w = (m, .err (.invalidWhence w))) ∧
    (∀ b, seekBase m w = some b → (b + off < 0 ∨ m.totalSize < b + off) →
      mrSeek m off w = (m, .err (.outOfRange (b + off) m.totalSize))) ∧
    (∀ b, seekBase m w = some b → b + off = m.totalSize →
      (mrSeek m off w).2 = .ok m.totalSize ∧ (mrSeek m off w).1.absPos = m.totalSize) := by
  have hnc : ¬ m.closed = true := by simp [hc]
  refine ⟨?_, ?_, ?_, ?_⟩
  · intro h
    rw [seekBase, if_neg h.1, if_neg h.2.1, if_neg h.2.2]
  · intro hb
    rw [mrSeek, if_neg hnc, hb]
  · intro b hb hout
    rw [mrSeek, if_neg hnc, hb]
    dsimp only
    rw [if_pos hout]
  · intro b hb heq
    rw [mrSeek, if_neg hnc, hb]
    dsimp only
    rw [heq, if_neg (by omega)]
    exact ⟨rfl, rfl⟩

/-- C8 witness. -/
theorem C8_seek_validation_witness :
    (wErrM.closed = false ∧ 0 ≤ wErrM.totalSize) ∧
    mrSeek wErrM 0 99 = (wErrM, .err (.invalidWhence 99)) :=
  ⟨⟨rfl, by decide⟩,
    (C8_seek_validation wErrM rfl (by decide) 0 99).2.1 (by decide)⟩

/-- C10: a fresh composite has a nil producer-done handle; `Seek` never
creates one; `Close` with a nil handle performs no wait, closes every
source exactly once in declared order, and returns nil when every source
closes cleanly. -/
theorem C10_close_skips_wait_without_producer (bn : Int) (rs : List Src)
    (m : MultiReader) (hd : m.prefetchDone = false) :
    (NewMultiReader bn rs).prefetchDone = false ∧
    (∀ off w, (mrSeek m off w).1.prefetchDone = m.prefetchDone) ∧
    Ev.waitDone ∉ (mrClose m).2.2 ∧
    (m.closed = false →
      (mrClose m).2.2 = (List.range m.readers.length).map (fun k => Ev.srcClose k)) ∧
    (m.closed = false → (∀ r ∈ m.readers, r.closeErr = none) → (mrClose m).2.1 = none) := by
  refine ⟨rfl, fun off w => (mrSeek_frame m off w).2.1, ?_, ?_, ?_⟩
  · rw [mrClose]
    split
    · simp
    · dsimp only
      rw [hd]
      rw [closeAllGo_events]
      simp
  · intro hc
    rw [mrClose, if_neg (by simp [hc])]
    dsimp only
    rw [hd, closeAllGo_events]
    simp
  · intro hc hall
    rw [mrClose, if_neg (by simp [hc])]
    dsimp only
    rw [closeAllGo_acc_none m.readers 0 hall none]

/-- C10 witness. -/
theorem C10_close_skips_wait_without_producer_witness :
    ((NewMultiReader 2 [wSrc]).prefetchDone = false) ∧
    Ev.waitDone ∉ (mrClose (NewMultiReader 2 [wSrc])).2.2 :=
  ⟨by decide,
    (C10_close_skips_wait_without_producer 2 [wSrc] (NewMultiReader 2 [wSrc])
      (by decide)).2.2.1⟩

theorem streamBytes_cons (r : Src) (rest : List Src) :
    streamBytes (r :: rest) = r.data ++ streamBytes rest := by
  simp [streamBytes]

/-- Removing zero-length sources does not change the concatenated stream. -/
theorem streamBytes_filter (rs : List Src) :
    streamBytes (rs.filter (fun r => ! r.data.isEmpty)) = streamBytes rs := by
  induction rs with
  | nil => rfl
  | cons r rest ih =>
    rw [List.filter_cons, streamBytes_cons]
    by_cases h : r.data.isEmpty
    · have hd : r.data = [] := List.isEmpty_iff.mp h
      rw [if_neg (by simp [h]), ih, hd, List.nil_append]
    · rw [if_pos (by simp [h]), streamBytes_cons, ih]

theorem prefixSumsGo_last :
    ∀ (rs : List Src) (t : Int),
      (prefixSumsGo rs t).getD rs.length 0 = t + ((streamBytes rs).length : Int) := by
  intro rs
  induction rs with
  | nil => intro t; simp [prefixSumsGo, streamBytes]
  | cons r rest ih =>
    intro t
    rw [prefixSumsGo, List.length_cons, List.getD_cons_succ, ih, streamBytes_cons]
    push_cast [List.length_append]
    ring

/-- The cached total size of a composite equals the length of the
concatenated stream. -/
theorem NewMultiReader_totalSize (bn : Int) (rs : List Src) :
    (NewMultiReader bn rs).totalSize = ((streamBytes rs).length : Int) := by
  show (prefixSums rs).getD rs.length 0 = _
  rw [prefixSums, prefixSumsGo_last]
  ring

/-- At a boundary where the active source has no remaining bytes, the
prefetcher advances the producer cursor to the boundary, resets the active
reader, and performs no source read (part_000 lines 396-403). -/
theorem pfReadStage_skip (s : Sys) (c : Int) (idx : Nat) (evs : List Ev)
    (h : pfx s.mr (idx + 1) = c) :
    pfReadStage s c idx evs = ({ s with pf := .run (pfx s.mr (idx + 1)) none true }, evs) := by
  rw [pfReadStage]
  dsimp only
  rw [if_pos (by rw [h]; exact sub_self c)]

theorem pfStep_skip_empty (s : Sys) (c : Int) (idx : Nat) (ns : Bool)
    (hpf : s.pf = .ioPending c idx ns) (hc : s.mr.closed = false)
    (hrem : pfx s.mr (idx + 1) = c) :
    (pfStep s).1.pf = .run (pfx s.mr (idx + 1)) none true ∧
    ∀ i req k, Ev.srcRead i req k ∉ (pfStep s).2 := by
  obtain ⟨mr, pf, cc⟩ := s
  simp only at hpf hc hrem
  subst hpf
  cases ns with
  | false =>
    have hr := pfReadStage_skip ⟨mr, .ioPending c idx false, cc⟩ c idx [] hrem
    constructor
    · simp only [pfStep]
      rw [hr, if_neg Bool.false_ne_true]
    · intro i req k
      simp only [pfStep]
      rw [hr, if_neg Bool.false_ne_true]
      simp
  | true =>
    have hr := pfReadStage_skip
      ⟨{ mr with srcPos := mr.srcPos.set idx (c - pfx mr idx).toNat },
        .ioPending c idx true, cc⟩ c idx [Ev.srcSeek idx (c - pfx mr idx)] hrem
    constructor
    · simp only [pfStep]
      rw [hr, if_pos trivial, if_neg (by simp [hc])]
      rfl
    · intro i req k
      simp only [pfStep]
      rw [hr, if_pos trivial, if_neg (by simp [hc])]
      simp

/-- Every source read the prefetcher issues requests at least one byte,
provided the producer cursor has not run past the active reader's end. -/
theorem pfReadStage_events (s : Sys) (c : Int) (idx : Nat) (evs : List Ev)
    (hle : c ≤ pfx s.mr (idx + 1)) :
    ∀ i req k, Ev.srcRead i req k ∈ (pfReadStage s c idx evs).2 →
      Ev.srcRead i req k ∈ evs ∨ 0 < req := by
  intro i req k h
  rw [pfReadStage] at h
  dsimp only at h
  split at h
  · exact Or.inl h
  · rename_i hne
    rw [List.mem_append] at h
    rcases h with h | h
    · exact Or.inl h
    · right
      simp only [List.mem_singleton, Ev.srcRead.injEq] at h
      obtain ⟨-, hreq, -⟩ := h
      have hb : (bufferSize : Int) = 1048576 := by decide
      omega

theorem pfRunTail_events (s : Sys) (c1 : Int) (idx1 : Option Nat) (ns1 : Bool)
    (m1 : MultiReader) : (pfRunTail s c1 idx1 ns1 m1).2 = [] := by
  simp only [pfRunTail]
  repeat' split
  all_goals rfl

theorem pfStep_read_positive (s : Sys)
    (hin : ∀ c idx ns, s.pf = .ioPending c idx ns → c ≤ pfx s.mr (idx + 1)) :
    ∀ i req k, Ev.srcRead i req k ∈ (pfStep s).2 → 0 < req := by
  obtain ⟨mr, pf, cc⟩ := s
  cases pf with
  | notStarted => intro i req k h; simp [pfStep] at h
  | exited => intro i req k h; simp [pfStep] at h
  | run c idx ns =>
    intro i req k h
    have hnil : (pfStep ⟨mr, .run c idx ns, cc⟩).2 = [] := by
      simp only [pfStep]
      repeat' split
      all_goals (first | rfl | exact pfRunTail_events _ _ _ _ _)
    rw [hnil] at h
    simp at h
  | ioDone c idx buf re =>
    intro i req k h
    have hnil : (pfStep ⟨mr, .ioDone c idx buf re, cc⟩).2 = [] := by
      simp only [pfStep]
      repeat' split
      all_goals rfl
    rw [hnil] at h
    simp at h
  | ioPending c idx ns =>
    intro i req k h
    have hle := hin c idx ns rfl
    simp only at hle
    cases ns with
    | false =>
      simp only [pfStep] at h
      split at h
      · rename_i hns
        simp at hns
      · rcases pfReadStage_events ⟨mr, .ioPending c idx false, cc⟩ c idx [] hle i req k h with
          hm | hp
        · simp at hm
        · exact hp
    | true =>
      simp only [pfStep] at h
      split at h
      · split at h
        · simp at h
        · rcases pfReadStage_events
            ⟨{ mr with srcPos := mr.srcPos.set idx (c - pfx mr idx).toNat },
              .ioPending c idx true, cc⟩ c idx [Ev.srcSeek idx (c - pfx mr idx)] hle i req k h with
            hm | hp
          · simp at hm
          · exact hp
      · rename_i hns
        exact absurd trivial hns

/-- C9: zero-length sources are transparent: filtering them out preserves
the concatenated byte stream and the composite total size; the prefetcher
at a boundary whose active source has zero remaining bytes advances
without issuing any source read; every source read it does issue requests
at least one byte; and a concrete composite containing an empty source
produces, under the same schedule, exactly the observable `Read`/`Seek`
outcomes of the composite with the empty source removed. -/
theorem C9_empty_sources_transparent (bn : Int) (rs : List Src) :
    streamBytes (rs.filter (fun r => ! r.data.isEmpty)) = streamBytes rs ∧
    (NewMultiReader bn (rs.filter (fun r => ! r.data.isEmpty))).totalSize
      = (NewMultiReader bn rs).totalSize ∧
    (∀ (s : Sys) (c : Int) (idx : Nat) (ns : Bool),
      s.pf = .ioPending c idx ns → s.mr.closed = false → pfx s.mr (idx + 1) = c →
      (pfStep s).1.pf = .run (pfx s.mr (idx + 1)) none true ∧
      ∀ i req k, Ev.srcRead i req k ∉ (pfStep s).2) ∧
    (∀ (s : Sys), (∀ c idx ns, s.pf = .ioPending c idx ns → c ≤ pfx s.mr (idx + 1)) →
      ∀ i req k, Ev.srcRead i req k ∈ (pfStep s).2 → 0 < req) ∧
    (c9b = c9a.filter (fun r => ! r.data.isEmpty) ∧
      (runSched (initSys 4 c9a) c9sched).2 = (runSched (initSys 4 c9b) c9sched).2) := by
  refine ⟨streamBytes_filter rs, ?_, ?_, pfStep_read_positive, ⟨by decide, by decide⟩⟩
  · rw [NewMultiReader_totalSize, NewMultiReader_totalSize, streamBytes_filter]
  · intro s c idx ns h1 h2 h3
    exact pfStep_skip_empty s c idx ns h1 h2 h3

/-- C9 witness: the concrete composites with and without the empty source
observe the same outputs. -/
theorem C9_empty_sources_transparent_witness :
    (runSched (initSys 4 c9a) c9sched).2 = (runSched (initSys 4 c9b) c9sched).2 :=
  (C9_empty_sources_transparent 4 c9a).2.2.2.2.2

theorem sum_le_bound :
    ∀ (l : List Nat) (B : Nat), (∀ x ∈ l, x ≤ B) → l.sum ≤ l.length * B := by
  intro l
  induction l with
  | nil => intro B _; simp
  | cons x xs ih =>
    intro B hB
    rw [List.sum_cons, List.length_cons]
    have h1 := hB x (by simp)
    have h2 := ih B (fun y hy => hB y (by simp [hy]))
    have h3 : (xs.length + 1) * B = xs.length * B + B := by ring
    omega

/-- Packaging lemma: the capacity invariant for a system whose prefetcher
phase is neither `ioPending` nor `ioDone`. -/
theorem capInv_easy (s : Sys)
    (h1 : 0 < s.mr.buffers.length) (h2 : s.mr.occupiedCnt ≤ s.mr.buffers.length)
    (h3 : ∀ b ∈ s.mr.buffers, b.length ≤ bufferSize)
    (hpf : ∀ c idx ns, s.pf ≠ .ioPending c idx ns)
    (hpd : ∀ c idx buf e, s.pf ≠ .ioDone c idx buf e) : capInv s :=
  ⟨h1, h2, h3, fun c idx ns h => absurd h (hpf c idx ns),
    fun c idx buf e h => absurd h (hpd c idx buf e)⟩

/-- The capacity invariant holds initially. -/
theorem capInv_init (bn : Int) (rs : List Src) : capInv (initSys bn rs) := by
  refine capInv_easy _ ?_ (Nat.zero_le _) ?_ ?_ ?_
  · show 0 < (List.replicate (if bn ≤ 0 then defaultBuffersNum else bn.toNat)
      ([] : List Nat)).length
    rw [List.length_replicate]
    split
    · decide
    · rename_i hbn
      omega
  · intro b hb
    have hb2 : b ∈ List.replicate (if bn ≤ 0 then defaultBuffersNum else bn.toNat)
      ([] : List Nat) := hb
    rw [List.eq_of_mem_replicate hb2]
    exact Nat.zero_le _
  · intro c idx ns
    simp [initSys]
  · intro c idx buf e
    simp [initSys]

/-- The copy loop of `Read` keeps the slot count, never grows the occupied
count, and preserves slot-size bounds. -/
theorem readLoop_facts :
    ∀ (fuel : Nat) (m : MultiReader) (len n : Nat) (acc : List Nat),
      ((readLoop m fuel len n acc).state).buffers.length = m.buffers.length ∧
      ((readLoop m fuel len n acc).state).occupiedCnt ≤ m.occupiedCnt ∧
      ∀ B, (∀ b ∈ m.buffers, b.length ≤ B) →
        ∀ b ∈ ((readLoop m fuel len n acc).state).buffers, b.length ≤ B := by
  intro fuel
  induction fuel with
  | zero => intro m len n acc; exact ⟨rfl, le_refl _, fun B hB => hB⟩
  | succ fuel ih =>
    intro m len n acc
    rw [readLoop]
    split
    · exact ⟨rfl, le_refl _, fun B hB => hB⟩
    · split
      · exact ⟨rfl, le_refl _, fun B hB => hB⟩
      · split
        · split
          · exact ⟨rfl, le_refl _, fun B hB => hB⟩
          · exact ⟨rfl, le_refl _, fun B hB => hB⟩
        · dsimp only
          split
          · rename_i hdr
            obtain ⟨f1, f2, f3⟩ := ih _ len _ _
            refine ⟨f1.trans (List.length_set _ _ _), ?_, ?_⟩
            · exact f2.trans (Nat.sub_le _ _)
            · intro B hB
              refine f3 B ?_
              intro b hb
              rcases List.mem_or_eq_of_mem_set hb with hmem | rfl
              · exact hB b hmem
              · exact Nat.zero_le B
          · rename_i hdr
            obtain ⟨f1, f2, f3⟩ := ih _ len _ _
            exact ⟨f1, f2, f3⟩

/-- Entry of `Read` (including the lazy prefetcher start) keeps the slot
count, never grows the occupied count, and preserves slot-size bounds. -/
theorem readBegin_facts (m : MultiReader) (len : Nat) :
    ((readBegin m len).1.state).buffers.length = m.buffers.length ∧
    ((readBegin m len).1.state).occupiedCnt ≤ m.occupiedCnt ∧
    ∀ B, (∀ b ∈ m.buffers, b.length ≤ B) →
      ∀ b ∈ ((readBegin m len).1.state).buffers, b.length ≤ B := by
  rw [readBegin]
  split
  · exact ⟨rfl, le_refl _, fun B hB => hB⟩
  · split
    · exact ⟨rfl, le_refl _, fun B hB => hB⟩
    · split
      · exact ⟨rfl, le_refl _, fun B hB => hB⟩
      · split
        · exact readLoop_facts _ _ _ _ _
        · exact readLoop_facts _ _ _ _ _

/-- The run-tail of the prefetcher preserves the capacity invariant:
in particular it only moves to the I/O region after the backpressure check
guarantees a free slot. -/
theorem capInv_pfRunTail (s : Sys) (c1 : Int) (idx1 : Option Nat) (ns1 : Bool)
    (m1 : MultiReader) (hlen : 0 < m1.buffers.length)
    (hocc : m1.occupiedCnt ≤ m1.buffers.length)
    (hbnd : ∀ b ∈ m1.buffers, b.length ≤ bufferSize) :
    capInv (pfRunTail s c1 idx1 ns1 m1).1 := by
  rw [pfRunTail.eq_def]
  split
  · exact capInv_easy _ hlen hocc hbnd (by intro c idx ns; simp)
      (by intro c idx buf e; simp)
  · split
    · exact capInv_easy _ hlen hocc hbnd (by intro c idx ns; simp)
        (by intro c idx buf e; simp)
    · rename_i hfull
      refine ⟨hlen, hocc, hbnd, ?_, ?_⟩
      · intro c idx ns h
        show m1.occupiedCnt < m1.buffers.length
        omega
      · intro c idx buf e h
        exact absurd h (by simp)

/-- The read stage preserves the capacity invariant; in particular the
block it hands to `ioDone` is at most `bufferSize` bytes. -/
theorem capInv_pfReadStage (s : Sys) (c : Int) (idx : Nat) (evs : List Ev)
    (hlen : 0 < s.mr.buffers.length)
    (hocc : s.mr.occupiedCnt ≤ s.mr.buffers.length)
    (hbnd : ∀ b ∈ s.mr.buffers, b.length ≤ bufferSize)
    (hlt : s.mr.occupiedCnt < s.mr.buffers.length) :
    capInv (pfReadStage s c idx evs).1 := by
  rw [pfReadStage]
  dsimp only
  split
  · exact capInv_easy _ hlen hocc hbnd (by intro a b d; simp)
      (by intro a b d e; simp)
  · rename_i hne
    refine ⟨hlen, hocc, hbnd, ?_, ?_⟩
    · intro c2 idx2 ns2 h
      exact absurd h (by simp)
    · intro c2 idx2 buf2 e2 h
      simp only [PfCtl.ioDone.injEq] at h
      obtain ⟨-, -, hb, -⟩ := h
      refine ⟨hlt, ?_⟩
      rw [← hb]
      split
      · exact Nat.zero_le _
      · have hb1 : (bufferSize : Int) = 1048576 := by decide
        have hb2 : bufferSize = 1048576 := by decide
        simp only [List.length_take]
        omega

/-- The prefetcher preserves the capacity invariant. -/
theorem capInv_pfStep (s : Sys) (h : capInv s) : capInv (pfStep s).1 := by
  obtain ⟨mr, pf, cc⟩ := s
  obtain ⟨hlen, hocc, hbnd, hpend, hdone⟩ := h
  simp only at hlen hocc hbnd hpend hdone
  cases pf with
  | notStarted => exact ⟨hlen, hocc, hbnd, hpend, hdone⟩
  | exited => exact ⟨hlen, hocc, hbnd, hpend, hdone⟩
  | run c idx ns =>
    simp only [pfStep]
    split
    · exact capInv_easy _ hlen hocc hbnd (by intro a b d; simp)
        (by intro a b d e; simp)
    · split
      · exact capInv_pfRunTail _ _ _ _ _ hlen hocc hbnd
      · exact capInv_pfRunTail _ _ _ _ _ hlen hocc hbnd
  | ioPending c idx ns =>
    have hlt := hpend c idx ns rfl
    simp only [pfStep]
    split
    · split
      · exact capInv_easy _ hlen hocc hbnd (by intro a b d; simp)
          (by intro a b d e; simp)
      · exact capInv_pfReadStage _ _ _ _ hlen hocc hbnd hlt
    · exact capInv_pfReadStage _ _ _ _ hlen hocc hbnd hlt
  | ioDone c idx buf re =>
    obtain ⟨hlt, hbuf⟩ := hdone c idx buf re rfl
    simp only [pfStep]
    split
    · exact capInv_easy _ hlen hocc hbnd (by intro a b d; simp)
        (by intro a b d e; simp)
    · split
      · exact capInv_easy _ hlen hocc hbnd (by intro a b d; simp)
          (by intro a b d e; simp)
      · repeat' split
        all_goals
          refine capInv_easy _ ?_ ?_ ?_ (by intro a b d; simp [pfExit])
            (by intro a b d e; simp [pfExit]) <;>
            first
              | (simp only [pfExit, List.length_set]; omega)
              | (intro b hb
                 simp only [pfExit] at hb
                 rcases List.mem_or_eq_of_mem_set hb with hmem | rfl
                 · exact hbnd b hmem
                 · exact hbuf)
              | exact hbnd

/-- Every system step preserves the capacity invariant. -/
theorem capInv_step (s : Sys) (a : Act) (h : capInv s) : capInv (stepA s a).1 := by
  obtain ⟨mr, pf, cc⟩ := s
  obtain ⟨hlen, hocc, hbnd, hpend, hdone⟩ := h
  simp only at hlen hocc hbnd hpend hdone
  cases a with
  | pf =>
    simp only [stepA]
    exact capInv_pfStep ⟨mr, pf, cc⟩ ⟨hlen, hocc, hbnd, hpend, hdone⟩
  | readStart len =>
    cases cc with
    | idle =>
      obtain ⟨f1, f2, f3⟩ := readBegin_facts mr len
      simp only [stepA]
      cases hst : (readBegin mr len).2 with
      | false =>
        rcases hrb : (readBegin mr len).1 with ⟨m2, n, acc, e⟩ | ⟨m2, n, acc⟩ <;>
          rw [hrb] at f1 f2 f3 <;>
          simp only [ReadRes.state] at f1 f2 f3 <;>
          simp only [hrb, hst, Bool.false_eq_true, if_false] <;>
          · have g1 : 0 < m2.buffers.length := by omega
            have g2 : m2.occupiedCnt ≤ m2.buffers.length := by omega
            have g4 : ∀ c idx ns, pf = .ioPending c idx ns →
                m2.occupiedCnt < m2.buffers.length := by
              intro c idx ns hp
              have := hpend c idx ns hp
              omega
            have g5 : ∀ c idx buf e2, pf = .ioDone c idx buf e2 →
                m2.occupiedCnt < m2.buffers.length ∧ buf.length ≤ bufferSize := by
              intro c idx buf e2 hp
              obtain ⟨x1, x2⟩ := hdone c idx buf e2 hp
              exact ⟨by omega, x2⟩
            exact ⟨g1, g2, f3 bufferSize hbnd, g4, g5⟩
      | true =>
        rcases hrb : (readBegin mr len).1 with ⟨m2, n, acc, e⟩ | ⟨m2, n, acc⟩ <;>
          rw [hrb] at f1 f2 f3 <;>
          simp only [ReadRes.state] at f1 f2 f3 <;>
          simp only [hrb, hst, if_true] <;>
          · have g1 : 0 < m2.buffers.length := by omega
            have g2 : m2.occupiedCnt ≤ m2.buffers.length := by omega
            exact capInv_easy _ g1 g2 (f3 bufferSize hbnd)
              (by intro a b d; simp) (by intro a b d e; simp)
    | reading l0 n0 acc0 =>
      exact ⟨hlen, hocc, hbnd, hpend, hdone⟩
  | readGo =>
    cases cc with
    | idle => exact ⟨hlen, hocc, hbnd, hpend, hdone⟩
    | reading l0 n0 acc0 =>
      obtain ⟨f1, f2, f3⟩ := readLoop_facts (l0 - n0 + 1) mr l0 n0 acc0
      simp only [stepA]
      rcases hrl : readLoop mr (l0 - n0 + 1) l0 n0 acc0 with ⟨m2, n, acc, e⟩ | ⟨m2, n, acc⟩ <;>
        rw [hrl] at f1 f2 f3 <;>
        simp only [ReadRes.state] at f1 f2 f3 <;>
        simp only [hrl] <;>
        · have g1 : 0 < m2.buffers.length := by omega
          have g2 : m2.occupiedCnt ≤ m2.buffers.length := by omega
          have g4 : ∀ c idx ns, pf = .ioPending c idx ns →
              m2.occupiedCnt < m2.buffers.length := by
            intro c idx ns hp
            have := hpend c idx ns hp
            omega
          have g5 : ∀ c idx buf e2, pf = .ioDone c idx buf e2 →
              m2.occupiedCnt < m2.buffers.length ∧ buf.length ≤ bufferSize := by
            intro c idx buf e2 hp
            obtain ⟨x1, x2⟩ := hdone c idx buf e2 hp
            exact ⟨by omega, x2⟩
          exact ⟨g1, g2, f3 bufferSize hbnd, g4, g5⟩
  | seek off w =>
    cases cc with
    | idle =>
      obtain ⟨s1, s2, s3, s4, s5, s6, s7⟩ := mrSeek_frame mr off w
      simp only [stepA]
      refine ⟨by rw [s4]; exact hlen, ?_, s6 bufferSize hbnd, ?_, ?_⟩
      · rw [s4]; exact le_trans s5 hocc
      · intro c idx ns hp
        rw [s4]
        exact lt_of_le_of_lt s5 (hpend c idx ns hp)
      · intro c idx buf e hp
        obtain ⟨h1, h2⟩ := hdone c idx buf e hp
        rw [s4]
        exact ⟨lt_of_le_of_lt s5 h1, h2⟩
    | reading l0 n0 acc0 => exact ⟨hlen, hocc, hbnd, hpend, hdone⟩
  | close =>
    exact ⟨hlen, hocc, hbnd, hpend, hdone⟩

/-- The capacity invariant holds in every reachable state. -/
theorem capInv_reach (bn : Int) (rs : List Src) (s : Sys)
    (h : Reach (initSys bn rs) s) : capInv s := by
  induction h with
  | base => exact capInv_init bn rs
  | snoc h a ih => exact capInv_step _ a ih

/-- With a full window, the run-tail takes the backpressure wait and leaves
the window untouched. -/
theorem pfRunTail_full_wait (s : Sys) (c1 : Int) (idx1 : Option Nat) (ns1 : Bool)
    (m1 : MultiReader) (hfull : m1.occupiedCnt = m1.buffers.length) :
    (pfRunTail s c1 idx1 ns1 m1).1.mr.buffers = m1.buffers ∧
    (pfRunTail s c1 idx1 ns1 m1).1.mr.occupiedCnt = m1.occupiedCnt ∧
    ∀ c idx ns, (pfRunTail s c1 idx1 ns1 m1).1.pf ≠ .ioPending c idx ns := by
  rw [pfRunTail.eq_def]
  repeat' split
  all_goals exact ⟨rfl, rfl, by intro a b d; simp⟩

/-- A prefetcher step from a state with a full window never appends: the
window contents and the occupied count are unchanged (the prefetcher waits,
or exits for closed/EOF reasons without touching the window). -/
theorem pfStep_full_wait (s : Sys) (hinv : capInv s)
    (hfull : s.mr.occupiedCnt = s.mr.buffers.length) :
    (pfStep s).1.mr.buffers = s.mr.buffers ∧
    (pfStep s).1.mr.occupiedCnt = s.mr.occupiedCnt ∧
    ∀ c idx ns, (pfStep s).1.pf ≠ .ioPending c idx ns := by
  obtain ⟨mr, pf, cc⟩ := s
  obtain ⟨hlen, hocc, hbnd, hpend, hdone⟩ := hinv
  simp only at hfull
  cases pf with
  | notStarted => exact ⟨rfl, rfl, by intro a b d; simp [pfStep]⟩
  | exited => exact ⟨rfl, rfl, by intro a b d; simp [pfStep]⟩
  | run c idx ns =>
    simp only [pfStep]
    split
    · exact ⟨rfl, rfl, by intro a b d; simp⟩
    · split
      · exact pfRunTail_full_wait _ _ _ _ _ hfull
      · exact pfRunTail_full_wait _ _ _ _ _ hfull
  | ioPending c idx ns =>
    have h2 : mr.occupiedCnt < mr.buffers.length := hpend c idx ns rfl
    omega
  | ioDone c idx buf e =>
    have h2 : mr.occupiedCnt < mr.buffers.length := (hdone c idx buf e rfl).1
    omega

/-- C4: in every reachable state the occupied slot count is at most the
constructed capacity, the buffered bytes are at most capacity times
`bufferSize`, and from a full window the prefetcher step does not append
(backpressure). -/
theorem C4_window_bounded (bn : Int) (rs : List Src) (s : Sys)
    (h : Reach (initSys bn rs) s) :
    s.mr.occupiedCnt ≤ s.mr.buffers.length ∧
    (s.mr.buffers.map List.length).sum ≤ s.mr.buffers.length * bufferSize ∧
    (s.mr.occupiedCnt = s.mr.buffers.length →
      (stepA s Act.pf).1.mr.buffers = s.mr.buffers ∧
      (stepA s Act.pf).1.mr.occupiedCnt = s.mr.occupiedCnt ∧
      ∀ c idx ns, (stepA s Act.pf).1.pf ≠ .ioPending c idx ns) := by
  have hinv := capInv_reach bn rs s h
  obtain ⟨hlen, hocc, hbnd, hpend, hdone⟩ := hinv
  refine ⟨hocc, ?_, ?_⟩
  · have hall : ∀ x ∈ s.mr.buffers.map List.length, x ≤ bufferSize := by
      intro x hx
      obtain ⟨b, hb, rfl⟩ := List.mem_map.mp hx
      exact hbnd b hb
    have hsum := sum_le_bound (s.mr.buffers.map List.length) bufferSize hall
    rw [List.length_map] at hsum
    exact hsum
  · intro hfull
    have hw := pfStep_full_wait s ⟨hlen, hocc, hbnd, hpend, hdone⟩ hfull
    simpa [stepA] using hw

/-- C4 witness: the initial state of a one-slot composite. -/
theorem C4_window_bounded_witness :
    Reach (initSys 1 [wSrc]) (initSys 1 [wSrc]) ∧
    ((initSys 1 [wSrc]).mr.occupiedCnt ≤ (initSys 1 [wSrc]).mr.buffers.length ∧
      ((initSys 1 [wSrc]).mr.buffers.map List.length).sum
        ≤ (initSys 1 [wSrc]).mr.buffers.length * bufferSize ∧
      ((initSys 1 [wSrc]).mr.occupiedCnt = (initSys 1 [wSrc]).mr.buffers.length →
        (stepA (initSys 1 [wSrc]) Act.pf).1.mr.buffers = (initSys 1 [wSrc]).mr.buffers ∧
        (stepA (initSys 1 [wSrc]) Act.pf).1.mr.occupiedCnt
          = (initSys 1 [wSrc]).mr.occupiedCnt ∧
        ∀ c idx ns, (stepA (initSys 1 [wSrc]) Act.pf).1.pf ≠ .ioPending c idx ns)) :=
  ⟨Reach.base, C4_window_bounded 1 [wSrc] (initSys 1 [wSrc]) Reach.base⟩

end MR
